import Mathlib

/-!
Shallow embedding of the `weather` CLI (src/main.rs): the forecast
aggregation loop of `main`, the color classifiers `tc`/`rc`, the icon
map `icon` and the priority picker `pick_icon`, together with the two
fragments of the renderer that claims are about (card iteration order
and the hourly-section guard).

Modelling decisions:
* `f64` temperature/precipitation values are modelled as `ℚ`; the
  program only ever compares them (no arithmetic), so the ordering is
  faithful for every finite, non-NaN double.
* `f64::INFINITY` / `f64::NEG_INFINITY`, used only as initial values of
  a day's running `hi`/`lo`, are modelled by the extended type `XQ`
  with the same comparison behaviour.
* Rust's panicking byte-slicing `&ts[..10]` / `&ts[11..16]` is modelled
  at character granularity: `Option`-returning slices that are `none`
  exactly when the timestamp is too short (the panic branch).
-/

set_option autoImplicit false

namespace Weather

/-- ANSI style constants from the source. -/
def BOLD : String := "\x1b[1m"

def DIM : String := "\x1b[2m"

def CYAN : String := "\x1b[36m"

def BLUE : String := "\x1b[34m"

def GREEN : String := "\x1b[32m"

def YELLOW : String := "\x1b[33m"

def RED : String := "\x1b[31m"

def RESET : String := "\x1b[0m"

/-- Rationals extended with `±∞`, standing in for the `f64` values the
program manipulates (only comparisons occur, and `±∞` only as the
initial `hi`/`lo` of a fresh `DaySummary`). -/
inductive XQ where
  | negInf : XQ
  | fin : ℚ → XQ
  | posInf : XQ
deriving DecidableEq, Repr

/-- Strict order on `XQ`, mirroring `<` on non-NaN `f64`. -/
def XQ.ltb : XQ → XQ → Bool
  | .negInf, .negInf => false
  | .negInf, _ => true
  | .fin _, .negInf => false
  | .fin a, .fin b => decide (a < b)
  | .fin _, .posInf => true
  | .posInf, _ => false

/-- `struct WeatherEntry` (the deserialized hourly record). -/
structure WeatherEntry where
  timestamp : String
  temperature : ℚ
  precipitation_probability : Option ℚ
  condition : String
deriving DecidableEq

/-- `struct DaySummary`. -/
structure DaySummary where
  hi : XQ
  lo : XQ
  max_rp : ℚ
  conds : List String
  hours : List (String × ℚ × ℚ × String)
deriving DecidableEq

/-- `fn tc`: temperature → ANSI color. -/
def tc (t : ℚ) : String :=
  if t < 0 then BLUE
  else if t < 10 then CYAN
  else if t < 20 then GREEN
  else if t < 30 then YELLOW
  else RED

/-- `fn rc`: precipitation probability → ANSI color. -/
def rc (p : ℚ) : String :=
  if p ≥ 70 then RED
  else if p ≥ 40 then YELLOW
  else DIM

/-- `fn icon`: exact condition → glyph map. -/
def icon (cond : String) : String :=
  match cond with
  | "thunderstorm" => "⛈️"
  | "rain" => "🌧️"
  | "snow" => "❄️"
  | "sleet" => "🌨️"
  | "hail" => "🧊"
  | "fog" => "🌫️"
  | "cloudy" => "☁️"
  | _ => "☀️"

/-- The fixed priority list iterated by `pick_icon`. -/
def priority : List String :=
  ["thunderstorm", "rain", "snow", "sleet", "hail", "fog", "cloudy"]

/-- The `for c in [...] { if conds.iter().any(|s| s == c) { return icon(c) } }`
loop of `pick_icon`, with its early return. -/
def pickFrom (conds : List String) : List String → String
  | [] => icon "dry"
  | c :: rest => if conds.any (fun s => s == c) then icon c else pickFrom conds rest

/-- `fn pick_icon`. -/
def pick_icon (conds : List String) : String :=
  pickFrom conds priority

/-- `&entry.timestamp[..10]` — the day key; `none` models the panic on a
timestamp shorter than 10 characters. -/
def dayKey (ts : String) : Option String :=
  if 10 ≤ ts.toList.length then some ((ts.toList.take 10).asString) else none

/-- `&entry.timestamp[11..16]` — the hour label; `none` models the panic
on a timestamp shorter than 16 characters. -/
def hourLabel (ts : String) : Option String :=
  if 16 ≤ ts.toList.length then some (((ts.toList.drop 11).take 5).asString) else none

/-- A fully parsed observation: the per-entry values bound at the top of
the aggregation loop (`day`, `hour`, `t`, `rp`, `cond`). -/
structure Obs where
  day : String
  hour : String
  t : ℚ
  rp : ℚ
  cond : String
deriving DecidableEq

/-- Slicing + defaulting step of the loop body (lines 136–140):
fails exactly when the timestamp slicing would panic. -/
def parseEntry (e : WeatherEntry) : Option Obs := do
  let day ← dayKey e.timestamp
  let hour ← hourLabel e.timestamp
  pure ⟨day, hour, e.temperature, e.precipitation_probability.getD 0, e.condition⟩

/-- The fresh `DaySummary` pushed for a day seen for the first time. -/
def initSummary : DaySummary :=
  { hi := XQ.negInf, lo := XQ.posInf, max_rp := 0, conds := [], hours := [] }

/-- The unconditional update block of the loop body (lines 156–164). -/
def updateSummary (today : String) (o : Obs) (s : DaySummary) : DaySummary :=
  { hi := if XQ.ltb s.hi (XQ.fin o.t) then XQ.fin o.t else s.hi
    lo := if XQ.ltb (XQ.fin o.t) s.lo then XQ.fin o.t else s.lo
    max_rp := if s.max_rp < o.rp then o.rp else s.max_rp
    conds := if o.cond ≠ "dry" ∧ o.cond ∉ s.conds then s.conds ++ [o.cond] else s.conds
    hours := if o.day = today then s.hours ++ [(o.hour, o.t, o.rp, o.cond)] else s.hours }

/-- The lookup-or-create over the ordered `days` vector (lines 142–154)
followed by the update block: first entry with a matching day is updated
in place, otherwise a fresh summary is appended at the end. -/
def applyObs (today : String) (o : Obs) :
    List (String × DaySummary) → List (String × DaySummary)
  | [] => [(o.day, updateSummary today o initSummary)]
  | (d, s) :: rest =>
    if d = o.day then (d, updateSummary today o s) :: rest
    else (d, s) :: applyObs today o rest

/-- The whole aggregation loop (lines 133–165): `none` models a panic
while slicing some entry's timestamp. -/
def aggregate (today : String) (entries : List WeatherEntry) :
    Option (List (String × DaySummary)) :=
  entries.foldlM
    (fun days e => (parseEntry e).map (fun o => applyObs today o days)) []

/-- The order in which the card-rendering loop (lines 171–183) emits
per-day cards: it iterates `days` front to back. -/
def cardOrder (days : List (String × DaySummary)) : List String :=
  days.map Prod.fst

/-- The guard of the hourly section (lines 186–187): find today's entry,
emit the block iff its `hours` is non-empty. -/
def hourlySectionEmitted (today : String) (days : List (String × DaySummary)) : Bool :=
  match days.find? (fun p => p.1 == today) with
  | some p => !p.2.hours.isEmpty
  | none => false

/-- The hourly tuples the hourly section renders (lines 191–197). -/
def todaysHours (today : String) (days : List (String × DaySummary)) :
    List (String × ℚ × ℚ × String) :=
  match days.find? (fun p => p.1 == today) with
  | some p => p.2.hours
  | none => []

/-! ### Reference (spec-side) definitions

Used to characterize the aggregation loop: first-occurrence order of
day keys, and a direct per-day fold over the observations of one day. -/

/-- First-occurrence deduplication: keeps each element's first
occurrence, in order. -/
def firstOccur (l : List String) : List String :=
  l.foldl (fun acc k => if k ∈ acc then acc else acc ++ [k]) []

/-- Folding the loop's per-observation update over one day's
observations, starting from a fresh summary. -/
def dayFold (today : String) (l : List Obs) : DaySummary :=
  l.foldl (fun s o => updateSummary today o s) initSummary

/-- Reference form of the aggregation result: one entry per distinct day
key in first-occurrence order, each aggregated independently over that
day's observations. -/
def grouped (today : String) (obs : List Obs) : List (String × DaySummary) :=
  (firstOccur (obs.map Obs.day)).map
    (fun k => (k, dayFold today (obs.filter (fun o => o.day = k))))

/-- The aggregation loop on already-parsed observations. -/
def aggObs (today : String) (obs : List Obs) : List (String × DaySummary) :=
  obs.foldl (fun days o => applyObs today o days) []

/-- Reference: the defaulted precipitation values of the input entries
whose day key is `k`. -/
def dayRps (entries : List WeatherEntry) (k : String) : List ℚ :=
  (entries.filter (fun e => dayKey e.timestamp = some k)).map
    (fun e => e.precipitation_probability.getD 0)

/-- Reference: the condition labels of the input entries whose day key
is `k`, in input order. -/
def dayConds (entries : List WeatherEntry) (k : String) : List String :=
  (entries.filter (fun e => dayKey e.timestamp = some k)).map
    (fun e => e.condition)

/-! ### Parsing lemmas -/

theorem parseEntry_spec {e : WeatherEntry} {o : Obs} (h : parseEntry e = some o) :
    dayKey e.timestamp = some o.day ∧ hourLabel e.timestamp = some o.hour ∧
      o.t = e.temperature ∧ o.rp = e.precipitation_probability.getD 0 ∧
      o.cond = e.condition := by
  cases hd : dayKey e.timestamp with
  | none => simp [parseEntry, hd] at h
  | some d =>
    cases hh : hourLabel e.timestamp with
    | none => simp [parseEntry, hd, hh] at h
    | some hr =>
      simp only [parseEntry, hd, hh, Option.bind_eq_bind, Option.some_bind,
        Option.pure_def, Option.some.injEq] at h
      subst h
      exact ⟨rfl, rfl, rfl, rfl, rfl⟩

theorem mapM_parse_forall₂ :
    ∀ {entries : List WeatherEntry} {obs : List Obs},
      entries.mapM parseEntry = some obs →
      List.Forall₂ (fun e o => parseEntry e = some o) entries obs := by
  intro entries
  induction entries with
  | nil =>
    intro obs h
    simp only [List.mapM_nil, pure, Option.some.injEq] at h
    subst h
    exact List.Forall₂.nil
  | cons e l ih =>
    intro obs h
    rw [List.mapM_cons] at h
    cases he : parseEntry e with
    | none => rw [he] at h; simp at h
    | some o =>
      rw [he] at h
      cases hl : l.mapM parseEntry with
      | none => rw [hl] at h; simp at h
      | some os =>
        rw [hl] at h
        simp only [Option.bind_eq_bind, Option.some_bind, pure, Option.some.injEq] at h
        subst h
        exact List.Forall₂.cons he (ih hl)

theorem forall₂_map_eq {α β γ : Type} {R : α → β → Prop} {f : α → γ} {g : β → γ}
    (hfg : ∀ a b, R a b → f a = g b) :
    ∀ {l₁ : List α} {l₂ : List β}, List.Forall₂ R l₁ l₂ → l₁.map f = l₂.map g := by
  intro l₁ l₂ h
  induction h with
  | nil => rfl
  | cons hab _ ih => simp [ih, hfg _ _ hab]

theorem forall₂_filter_map {α β γ : Type} {R : α → β → Prop}
    {p : α → Bool} {q : β → Bool} {f : α → γ} {g : β → γ}
    (hpq : ∀ a b, R a b → p a = q b) (hfg : ∀ a b, R a b → f a = g b) :
    ∀ {l₁ : List α} {l₂ : List β}, List.Forall₂ R l₁ l₂ →
      (l₁.filter p).map f = (l₂.filter q).map g := by
  intro l₁ l₂ h
  induction h with
  | nil => rfl
  | @cons a b l₁ l₂ hab htail ih =>
    rw [List.filter_cons, List.filter_cons, ← hpq a b hab]
    cases hpa : p a with
    | true => simp [ih, hfg a b hab]
    | false => simp [ih]

theorem forall₂_filterMap_eq {α β γ : Type} {R : α → β → Prop}
    {f : α → Option γ} {g : β → γ}
    (hfg : ∀ a b, R a b → f a = some (g b)) :
    ∀ {l₁ : List α} {l₂ : List β}, List.Forall₂ R l₁ l₂ →
      l₁.filterMap f = l₂.map g := by
  intro l₁ l₂ h
  induction h with
  | nil => rfl
  | @cons a b l₁ l₂ hab _ ih =>
    rw [List.filterMap_cons, hfg a b hab, List.map_cons, ih]

theorem forall₂_mem_right {α β : Type} {R : α → β → Prop} :
    ∀ {l₁ : List α} {l₂ : List β}, List.Forall₂ R l₁ l₂ →
      ∀ b ∈ l₂, ∃ a ∈ l₁, R a b := by
  intro l₁ l₂ h
  induction h with
  | nil => intro b hb; simp at hb
  | cons hab _ ih =>
    intro b hb
    rcases List.mem_cons.mp hb with hb | hb
    · subst hb; exact ⟨_, List.mem_cons_self _ _, hab⟩
    · rcases ih b hb with ⟨a, ha, hR⟩
      exact ⟨a, List.mem_cons_of_mem _ ha, hR⟩

theorem foldlM_parse (today : String) :
    ∀ (l : List WeatherEntry) (init : List (String × DaySummary)),
      (l.foldlM (fun days e => (parseEntry e).map (fun o => applyObs today o days)) init)
        = (l.mapM parseEntry).map
            (fun obs => obs.foldl (fun days o => applyObs today o days) init) := by
  intro l
  induction l with
  | nil =>
    intro init
    simp only [List.foldlM_nil, List.mapM_nil, Option.pure_def]
    rfl
  | cons e l ih =>
    intro init
    rw [List.foldlM_cons, List.mapM_cons]
    cases he : parseEntry e with
    | none => simp [he]
    | some o =>
      simp only [he, Option.map_some, Option.bind_eq_bind, Option.some_bind, ih]
      cases hl : l.mapM parseEntry with
      | none => simp
      | some os => simp

theorem aggregate_eq (today : String) (entries : List WeatherEntry) :
    aggregate today entries = (entries.mapM parseEntry).map (aggObs today) :=
  foldlM_parse today entries []

/-! ### First-occurrence order lemmas -/

theorem mem_foldl_firstOccur :
    ∀ (l : List String) (acc : List String) (k : String),
      (k ∈ l.foldl (fun acc k => if k ∈ acc then acc else acc ++ [k]) acc) ↔
        k ∈ acc ∨ k ∈ l := by
  intro l
  induction l with
  | nil => simp
  | cons a l ih =>
    intro acc k
    rw [List.foldl_cons, ih]
    by_cases ha : a ∈ acc
    · simp only [if_pos ha, List.mem_cons]
      constructor
      · rintro (h | h)
        · exact Or.inl h
        · exact Or.inr (Or.inr h)
      · rintro (h | h | h)
        · exact Or.inl h
        · subst h; exact Or.inl ha
        · exact Or.inr h
    · simp only [if_neg ha, List.mem_append, List.mem_singleton, List.mem_cons]
      tauto

theorem nodup_foldl_firstOccur :
    ∀ (l : List String) (acc : List String), acc.Nodup →
      (l.foldl (fun acc k => if k ∈ acc then acc else acc ++ [k]) acc).Nodup := by
  intro l
  induction l with
  | nil => intro acc h; exact h
  | cons a l ih =>
    intro acc h
    rw [List.foldl_cons]
    by_cases ha : a ∈ acc
    · rw [if_pos ha]; exact ih acc h
    · rw [if_neg ha]
      refine ih _ ?_
      simp [List.nodup_append, h, ha]

theorem mem_firstOccur {l : List String} {k : String} : k ∈ firstOccur l ↔ k ∈ l := by
  rw [firstOccur, mem_foldl_firstOccur]
  simp

theorem firstOccur_nodup (l : List String) : (firstOccur l).Nodup :=
  nodup_foldl_firstOccur l [] List.nodup_nil

theorem firstOccur_append_singleton (l : List String) (k : String) :
    firstOccur (l ++ [k]) = if k ∈ l then firstOccur l else firstOccur l ++ [k] := by
  rw [firstOccur, List.foldl_append, List.foldl_cons, List.foldl_nil]
  rw [show (l.foldl (fun acc k => if k ∈ acc then acc else acc ++ [k]) []) = firstOccur l
    from rfl]
  by_cases h : k ∈ l
  · rw [if_pos (mem_firstOccur.mpr h), if_pos h]
  · rw [if_neg (fun hc => h (mem_firstOccur.mp hc)), if_neg h]

theorem foldl_firstOccur_noop :
    ∀ (l : List String) (acc : List String), (∀ x ∈ l, x ∈ acc) →
      l.foldl (fun acc k => if k ∈ acc then acc else acc ++ [k]) acc = acc := by
  intro l
  induction l with
  | nil => intro acc _; rfl
  | cons a l ih =>
    intro acc h
    rw [List.foldl_cons, if_pos (h a (List.mem_cons_self a l))]
    exact ih acc (fun x hx => h x (List.mem_cons_of_mem _ hx))

theorem firstOccur_const {l : List String} {k : String} (hne : l ≠ [])
    (hall : ∀ x ∈ l, x = k) : firstOccur l = [k] := by
  cases l with
  | nil => exact absurd rfl hne
  | cons a l =>
    have ha : a = k := hall a (List.mem_cons_self a l)
    subst ha
    rw [firstOccur, List.foldl_cons]
    simp only [List.not_mem_nil, if_false, List.nil_append]
    exact foldl_firstOccur_noop l [a]
      (fun x hx => by rw [hall x (List.mem_cons_of_mem _ hx)]; exact List.mem_singleton_self _)

/-! ### Characterization of the aggregation loop -/

theorem applyObs_not_mem (today : String) (o : Obs) :
    ∀ days : List (String × DaySummary), o.day ∉ days.map Prod.fst →
      applyObs today o days = days ++ [(o.day, updateSummary today o initSummary)] := by
  intro days
  induction days with
  | nil => intro _; rfl
  | cons p rest ih =>
    intro h
    obtain ⟨d, s⟩ := p
    simp only [List.map_cons, List.mem_cons, not_or] at h
    rw [applyObs, if_neg (fun hc => h.1 hc.symm), ih h.2, List.cons_append]

theorem applyObs_grouped (today : String) (o : Obs) (g : String → DaySummary) :
    ∀ keys : List String, keys.Nodup → o.day ∈ keys →
      applyObs today o (keys.map (fun k => (k, g k)))
        = keys.map
            (fun k => (k, if k = o.day then updateSummary today o (g k) else g k)) := by
  intro keys
  induction keys with
  | nil => intro _ h; simp at h
  | cons k rest ih =>
    intro hnd hmem
    rw [List.map_cons, List.map_cons, applyObs]
    by_cases hk : k = o.day
    · rw [if_pos hk, if_pos hk]
      have hrest : ∀ k' ∈ rest, k' ≠ o.day := by
        intro k' hk' hc
        have hkk : k' = k := hc.trans hk.symm
        exact (List.nodup_cons.mp hnd).1 (hkk ▸ hk')
      have : rest.map (fun k => (k, g k))
          = rest.map (fun k => (k, if k = o.day then updateSummary today o (g k) else g k)) :=
        List.map_congr_left (fun k' hk' => by rw [if_neg (hrest k' hk')])
      rw [this]
    · rw [if_neg hk, if_neg hk]
      have hmem' : o.day ∈ rest := by
        rcases List.mem_cons.mp hmem with h | h
        · exact absurd h.symm hk
        · exact h
      rw [ih (List.nodup_cons.mp hnd).2 hmem']

theorem aggObs_eq_grouped (today : String) :
    ∀ obs : List Obs, aggObs today obs = grouped today obs := by
  intro obs
  induction obs using List.reverseRecOn with
  | nil => rfl
  | append_singleton obs o ih =>
    have hstep : aggObs today (obs ++ [o]) = applyObs today o (aggObs today obs) := by
      rw [aggObs, List.foldl_append, List.foldl_cons, List.foldl_nil]; rfl
    have hmapday : (obs ++ [o]).map Obs.day = obs.map Obs.day ++ [o.day] := by
      rw [List.map_append]; rfl
    have hfiltapp : ∀ k : String, (obs ++ [o]).filter (fun x => x.day = k)
        = obs.filter (fun x => x.day = k) ++ if o.day = k then [o] else [] := by
      intro k
      rw [List.filter_append]
      congr 1
      by_cases hk : o.day = k
      · simp [List.filter_cons, hk]
      · simp [List.filter_cons, hk]
    rw [hstep, ih]
    by_cases hmem : o.day ∈ obs.map Obs.day
    · rw [grouped, grouped, hmapday, firstOccur_append_singleton, if_pos hmem]
      rw [show (firstOccur (obs.map Obs.day)).map
            (fun k => (k, dayFold today (obs.filter (fun x => x.day = k))))
          = (firstOccur (obs.map Obs.day)).map
            (fun k => (k, (fun k => dayFold today (obs.filter (fun x => x.day = k))) k))
        from rfl]
      rw [applyObs_grouped today o _ _ (firstOccur_nodup _) (mem_firstOccur.mpr hmem)]
      refine List.map_congr_left (fun k _ => ?_)
      rw [hfiltapp k]
      by_cases hk : k = o.day
      · rw [if_pos hk, if_pos (by rw [hk]), dayFold, dayFold, List.foldl_append,
          List.foldl_cons, List.foldl_nil]
      · rw [if_neg hk, if_neg (fun hc => hk hc.symm), List.append_nil]
    · rw [grouped, grouped, hmapday, firstOccur_append_singleton, if_neg hmem]
      have hkeys : o.day ∉ ((firstOccur (obs.map Obs.day)).map
          (fun k => (k, dayFold today (obs.filter (fun x => x.day = k))))).map Prod.fst := by
        rw [List.map_map]
        intro hc
        rw [show ((fun p : String × DaySummary => p.1) ∘
            (fun k => (k, dayFold today (obs.filter (fun x => x.day = k)))))
          = id from rfl, List.map_id] at hc
        exact hmem (mem_firstOccur.mp hc)
      rw [applyObs_not_mem today o _ hkeys, List.map_append, List.map_singleton]
      congr 1
      · refine List.map_congr_left (fun k hk => ?_)
        have hko : ¬ o.day = k := by
          intro hc
          exact hmem (by rw [← hc] at hk; exact mem_firstOccur.mp hk)
        rw [hfiltapp k, if_neg hko, List.append_nil]
      · have hfilt : obs.filter (fun x => x.day = o.day) = [] := by
          rw [List.filter_eq_nil_iff]
          intro x hx hc
          exact hmem (List.mem_map.mpr ⟨x, hx, by simpa using hc⟩)
        rw [hfiltapp o.day, if_pos rfl, hfilt, List.nil_append]
        rfl

theorem aggregate_some {today : String} {entries : List WeatherEntry}
    {days : List (String × DaySummary)} (h : aggregate today entries = some days) :
    ∃ obs : List Obs, entries.mapM parseEntry = some obs ∧ days = grouped today obs := by
  rw [aggregate_eq] at h
  cases hm : entries.mapM parseEntry with
  | none => rw [hm] at h; simp at h
  | some obs =>
    rw [hm] at h
    have h' : aggObs today obs = days := by simpa using h
    exact ⟨obs, rfl, by rw [← h', aggObs_eq_grouped]⟩

/-! ### Per-day fold component lemmas -/

theorem foldl_update_hi (today : String) :
    ∀ (l : List Obs) (s : DaySummary),
      (l.foldl (fun s o => updateSummary today o s) s).hi
        = l.foldl (fun x o => if XQ.ltb x (XQ.fin o.t) then XQ.fin o.t else x) s.hi := by
  intro l
  induction l with
  | nil => intro s; rfl
  | cons o l ih => intro s; rw [List.foldl_cons, List.foldl_cons, ih]; rfl

theorem foldl_update_lo (today : String) :
    ∀ (l : List Obs) (s : DaySummary),
      (l.foldl (fun s o => updateSummary today o s) s).lo
        = l.foldl (fun x o => if XQ.ltb (XQ.fin o.t) x then XQ.fin o.t else x) s.lo := by
  intro l
  induction l with
  | nil => intro s; rfl
  | cons o l ih => intro s; rw [List.foldl_cons, List.foldl_cons, ih]; rfl

theorem foldl_update_rp (today : String) :
    ∀ (l : List Obs) (s : DaySummary),
      (l.foldl (fun s o => updateSummary today o s) s).max_rp
        = l.foldl (fun m o => if m < o.rp then o.rp else m) s.max_rp := by
  intro l
  induction l with
  | nil => intro s; rfl
  | cons o l ih => intro s; rw [List.foldl_cons, List.foldl_cons, ih]; rfl

theorem foldl_update_conds (today : String) :
    ∀ (l : List Obs) (s : DaySummary),
      (l.foldl (fun s o => updateSummary today o s) s).conds
        = l.foldl
            (fun cs o => if o.cond ≠ "dry" ∧ o.cond ∉ cs then cs ++ [o.cond] else cs)
            s.conds := by
  intro l
  induction l with
  | nil => intro s; rfl
  | cons o l ih => intro s; rw [List.foldl_cons, List.foldl_cons, ih]; rfl

theorem foldl_update_hours (today : String) :
    ∀ (l : List Obs) (s : DaySummary),
      (l.foldl (fun s o => updateSummary today o s) s).hours
        = l.foldl
            (fun hs o => if o.day = today then hs ++ [(o.hour, o.t, o.rp, o.cond)] else hs)
            s.hours := by
  intro l
  induction l with
  | nil => intro s; rfl
  | cons o l ih => intro s; rw [List.foldl_cons, List.foldl_cons, ih]; rfl

/-! ### Fold value lemmas (max, min, dedup, append) -/

theorem foldl_max_mem {α : Type} [LinearOrder α] :
    ∀ (l : List α) (a : α), l.foldl max a ∈ a :: l := by
  intro l
  induction l with
  | nil => intro a; exact List.mem_singleton_self a
  | cons b l ih =>
    intro a
    rw [List.foldl_cons]
    rcases List.mem_cons.mp (ih (max a b)) with h | h
    · rw [h]
      rcases max_choice a b with hm | hm <;> rw [hm]
      · exact List.mem_cons_self _ _
      · exact List.mem_cons_of_mem _ (List.mem_cons_self _ _)
    · exact List.mem_cons_of_mem _ (List.mem_cons_of_mem _ h)

theorem le_foldl_max {α : Type} [LinearOrder α] :
    ∀ (l : List α) (a : α) (x : α), (x = a ∨ x ∈ l) → x ≤ l.foldl max a := by
  intro l
  induction l with
  | nil =>
    intro a x hx
    rcases hx with h | h
    · exact le_of_eq h
    · simp at h
  | cons b l ih =>
    intro a x hx
    rw [List.foldl_cons]
    rcases hx with h | h
    · exact le_trans (le_of_eq h) (le_trans (le_max_left a b) (ih (max a b) _ (Or.inl rfl)))
    · rcases List.mem_cons.mp h with h | h
      · exact le_trans (le_of_eq h)
          (le_trans (le_max_right a b) (ih (max a b) _ (Or.inl rfl)))
      · exact ih (max a b) x (Or.inr h)

theorem foldl_min_mem {α : Type} [LinearOrder α] :
    ∀ (l : List α) (a : α), l.foldl min a ∈ a :: l := by
  intro l
  induction l with
  | nil => intro a; exact List.mem_singleton_self a
  | cons b l ih =>
    intro a
    rw [List.foldl_cons]
    rcases List.mem_cons.mp (ih (min a b)) with h | h
    · rw [h]
      rcases min_choice a b with hm | hm <;> rw [hm]
      · exact List.mem_cons_self _ _
      · exact List.mem_cons_of_mem _ (List.mem_cons_self _ _)
    · exact List.mem_cons_of_mem _ (List.mem_cons_of_mem _ h)

theorem foldl_min_le {α : Type} [LinearOrder α] :
    ∀ (l : List α) (a : α) (x : α), (x = a ∨ x ∈ l) → l.foldl min a ≤ x := by
  intro l
  induction l with
  | nil =>
    intro a x hx
    rcases hx with h | h
    · exact le_of_eq h.symm
    · simp at h
  | cons b l ih =>
    intro a x hx
    rw [List.foldl_cons]
    rcases hx with h | h
    · exact le_trans (le_trans (ih (min a b) _ (Or.inl rfl)) (min_le_left a b))
        (le_of_eq h.symm)
    · rcases List.mem_cons.mp h with h | h
      · exact le_trans (le_trans (ih (min a b) _ (Or.inl rfl)) (min_le_right a b))
          (le_of_eq h.symm)
      · exact ih (min a b) x (Or.inr h)

theorem foldl_xmax_fin :
    ∀ (l : List Obs) (a : ℚ),
      l.foldl (fun x o => if XQ.ltb x (XQ.fin o.t) then XQ.fin o.t else x) (XQ.fin a)
        = XQ.fin (l.foldl (fun m o => max m o.t) a) := by
  intro l
  induction l with
  | nil => intro a; rfl
  | cons o l ih =>
    intro a
    rw [List.foldl_cons, List.foldl_cons]
    have hstep : (if XQ.ltb (XQ.fin a) (XQ.fin o.t) then XQ.fin o.t else XQ.fin a)
        = XQ.fin (max a o.t) := by
      rcases le_or_lt o.t a with h | h
      · rw [XQ.ltb, if_neg (by simpa using not_lt.mpr h), max_eq_left h]
      · rw [XQ.ltb, if_pos (by simpa using h), max_eq_right (le_of_lt h)]
    rw [hstep, ih]

theorem foldl_xmin_fin :
    ∀ (l : List Obs) (a : ℚ),
      l.foldl (fun x o => if XQ.ltb (XQ.fin o.t) x then XQ.fin o.t else x) (XQ.fin a)
        = XQ.fin (l.foldl (fun m o => min m o.t) a) := by
  intro l
  induction l with
  | nil => intro a; rfl
  | cons o l ih =>
    intro a
    rw [List.foldl_cons, List.foldl_cons]
    have hstep : (if XQ.ltb (XQ.fin o.t) (XQ.fin a) then XQ.fin o.t else XQ.fin a)
        = XQ.fin (min a o.t) := by
      rcases le_or_lt a o.t with h | h
      · rw [XQ.ltb, if_neg (by simpa using not_lt.mpr h), min_eq_left h]
      · rw [XQ.ltb, if_pos (by simpa using h), min_eq_right (le_of_lt h)]
    rw [hstep, ih]

theorem foldl_rp_eq_max :
    ∀ (l : List Obs) (a : ℚ),
      l.foldl (fun m o => if m < o.rp then o.rp else m) a
        = l.foldl (fun m o => max m o.rp) a := by
  intro l
  induction l with
  | nil => intro a; rfl
  | cons o l ih =>
    intro a
    rw [List.foldl_cons, List.foldl_cons, ih]
    congr 1
    rcases le_or_lt o.rp a with h | h
    · rw [if_neg (not_lt.mpr h), max_eq_left h]
    · rw [if_pos h, max_eq_right (le_of_lt h)]

theorem foldl_conds_firstOccur :
    ∀ (l : List Obs) (acc : List String),
      l.foldl (fun cs o => if o.cond ≠ "dry" ∧ o.cond ∉ cs then cs ++ [o.cond] else cs) acc
        = ((l.map Obs.cond).filter (fun c => ¬ c = "dry")).foldl
            (fun acc k => if k ∈ acc then acc else acc ++ [k]) acc := by
  intro l
  induction l with
  | nil => intro acc; rfl
  | cons o l ih =>
    intro acc
    rw [List.foldl_cons, List.map_cons, List.filter_cons]
    by_cases hdry : o.cond = "dry"
    · rw [if_neg (fun hc => hc.1 hdry)]
      rw [if_neg (by simp [hdry])]
      exact ih acc
    · have hfc : (decide ¬ o.cond = "dry") = true := by simp [hdry]
      by_cases hmem : o.cond ∈ acc
      · rw [if_neg (fun hc => hc.2 hmem), if_pos hfc, List.foldl_cons, if_pos hmem]
        exact ih acc
      · rw [if_pos ⟨hdry, hmem⟩, if_pos hfc, List.foldl_cons, if_neg hmem]
        exact ih (acc ++ [o.cond])

theorem foldl_hours_filter (today : String) :
    ∀ (l : List Obs) (acc : List (String × ℚ × ℚ × String)),
      l.foldl (fun hs o => if o.day = today then hs ++ [(o.hour, o.t, o.rp, o.cond)] else hs)
          acc
        = acc ++ (l.filter (fun o => o.day = today)).map
            (fun o => (o.hour, o.t, o.rp, o.cond)) := by
  intro l
  induction l with
  | nil => intro acc; rw [List.foldl_nil, List.filter_nil, List.map_nil, List.append_nil]
  | cons o l ih =>
    intro acc
    rw [List.foldl_cons, List.filter_cons]
    by_cases hd : o.day = today
    · rw [if_pos hd, if_pos (by simpa using hd), List.map_cons, ih]
      simp
    · rw [if_neg hd, if_neg (by simpa using hd), ih]

/-! ### Derived per-day summaries -/

theorem dayFold_hi_spec (today : String) (l : List Obs) (hne : l ≠ []) :
    ∃ m, (dayFold today l).hi = XQ.fin m ∧ m ∈ l.map Obs.t ∧ ∀ x ∈ l.map Obs.t, x ≤ m := by
  cases l with
  | nil => exact absurd rfl hne
  | cons o rest =>
    rw [dayFold, foldl_update_hi, List.foldl_cons]
    rw [show (if XQ.ltb initSummary.hi (XQ.fin o.t) then XQ.fin o.t else initSummary.hi)
        = XQ.fin o.t from rfl]
    rw [foldl_xmax_fin]
    refine ⟨_, rfl, ?_, ?_⟩
    · have := foldl_max_mem (rest.map Obs.t) o.t
      rw [List.foldl_map] at this
      simpa using this
    · intro x hx
      have hx' : x = o.t ∨ x ∈ rest.map Obs.t := by simpa using hx
      have := le_foldl_max (rest.map Obs.t) o.t x hx'
      rw [List.foldl_map] at this
      exact this

theorem dayFold_lo_spec (today : String) (l : List Obs) (hne : l ≠ []) :
    ∃ m, (dayFold today l).lo = XQ.fin m ∧ m ∈ l.map Obs.t ∧ ∀ x ∈ l.map Obs.t, m ≤ x := by
  cases l with
  | nil => exact absurd rfl hne
  | cons o rest =>
    rw [dayFold, foldl_update_lo, List.foldl_cons]
    rw [show (if XQ.ltb (XQ.fin o.t) initSummary.lo then XQ.fin o.t else initSummary.lo)
        = XQ.fin o.t from rfl]
    rw [foldl_xmin_fin]
    refine ⟨_, rfl, ?_, ?_⟩
    · have := foldl_min_mem (rest.map Obs.t) o.t
      rw [List.foldl_map] at this
      simpa using this
    · intro x hx
      have hx' : x = o.t ∨ x ∈ rest.map Obs.t := by simpa using hx
      have := foldl_min_le (rest.map Obs.t) o.t x hx'
      rw [List.foldl_map] at this
      exact this

theorem dayFold_rp_spec (today : String) (l : List Obs) :
    (dayFold today l).max_rp = (l.map Obs.rp).foldl max 0 := by
  rw [dayFold, foldl_update_rp, foldl_rp_eq_max, List.foldl_map]
  rfl

theorem dayFold_conds_spec (today : String) (l : List Obs) :
    (dayFold today l).conds = firstOccur ((l.map Obs.cond).filter (fun c => ¬ c = "dry")) := by
  rw [dayFold, foldl_update_conds, foldl_conds_firstOccur]
  rfl

theorem dayFold_hours_spec (today : String) (l : List Obs) :
    (dayFold today l).hours
      = (l.filter (fun o => o.day = today)).map (fun o => (o.hour, o.t, o.rp, o.cond)) := by
  rw [dayFold, foldl_update_hours, foldl_hours_filter]
  rfl

/-! ### Lookup and membership helpers -/

theorem mem_grouped {today : String} {obs : List Obs} {p : String × DaySummary}
    (hp : p ∈ grouped today obs) :
    p = (p.1, dayFold today (obs.filter (fun o => o.day = p.1))) ∧
      ∃ o ∈ obs, o.day = p.1 := by
  rw [grouped] at hp
  rcases List.mem_map.mp hp with ⟨k, hk, hpk⟩
  subst hpk
  refine ⟨rfl, ?_⟩
  rcases List.mem_map.mp (mem_firstOccur.mp hk) with ⟨o, ho, hod⟩
  exact ⟨o, ho, hod⟩

theorem filter_day_ne_nil {obs : List Obs} {k : String} {o : Obs} (ho : o ∈ obs)
    (hod : o.day = k) : obs.filter (fun x => x.day = k) ≠ [] := by
  intro hc
  rw [List.filter_eq_nil_iff] at hc
  exact hc o ho (by simpa using hod)

theorem find?_grouped (today : String) (g : String → DaySummary) :
    ∀ keys : List String,
      (keys.map (fun k => (k, g k))).find? (fun p => p.1 == today)
        = if today ∈ keys then some (today, g today) else none := by
  intro keys
  induction keys with
  | nil => simp
  | cons k rest ih =>
    rw [List.map_cons, List.find?_cons]
    by_cases hk : k = today
    · subst hk
      simp
    · have hbeq : ((k, g k).1 == today) = false := by simpa using hk
      rw [hbeq, ih]
      by_cases hmem : today ∈ rest
      · rw [if_pos hmem, if_pos (List.mem_cons_of_mem _ hmem)]
      · rw [if_neg hmem, if_neg (fun hc => by
          rcases List.mem_cons.mp hc with h | h
          · exact hk h.symm
          · exact hmem h)]

theorem forall₂_filterMap_congr {α β γ : Type} {R : α → β → Prop}
    {f : α → Option γ} {g : β → Option γ}
    (hfg : ∀ a b, R a b → f a = g b) :
    ∀ {l₁ : List α} {l₂ : List β}, List.Forall₂ R l₁ l₂ →
      l₁.filterMap f = l₂.filterMap g := by
  intro l₁ l₂ h
  induction h with
  | nil => rfl
  | @cons a b l₁ l₂ hab _ ih =>
    rw [List.filterMap_cons, List.filterMap_cons, hfg a b hab, ih]

theorem filterMap_ite_eq_filter_map {α β : Type} (p : α → Prop) [DecidablePred p]
    (f : α → β) :
    ∀ l : List α,
      l.filterMap (fun a => if p a then some (f a) else none)
        = (l.filter (fun a => p a)).map f := by
  intro l
  induction l with
  | nil => rfl
  | cons a l ih =>
    rw [List.filterMap_cons, List.filter_cons]
    by_cases ha : p a
    · rw [if_pos ha, if_pos (by simpa using ha), List.map_cons, ih]
    · rw [if_neg ha, if_neg (by simpa using ha), ih]

/-! ### Icon picking lemmas -/

theorem pickFrom_skip (conds : List String) :
    ∀ (l₁ : List String) (c : String) (l₂ : List String),
      (∀ x ∈ l₁, x ∉ conds) → c ∈ conds →
      pickFrom conds (l₁ ++ c :: l₂) = icon c := by
  intro l₁
  induction l₁ with
  | nil =>
    intro c l₂ _ hc
    rw [List.nil_append]
    simp only [pickFrom]
    rw [if_pos (List.any_eq_true.mpr ⟨c, hc, by simp⟩)]
  | cons a l₁ ih =>
    intro c l₂ h hc
    rw [List.cons_append]
    simp only [pickFrom]
    rw [if_neg (fun hx => by
      rcases List.any_eq_true.mp hx with ⟨x, hx1, hx2⟩
      exact h a (List.mem_cons_self a l₁) (by rw [← show x = a by simpa using hx2]; exact hx1))]
    exact ih c l₂ (fun x hx => h x (List.mem_cons_of_mem _ hx)) hc

theorem pickFrom_none (conds : List String) :
    ∀ l : List String, (∀ x ∈ l, x ∉ conds) → pickFrom conds l = icon "dry" := by
  intro l
  induction l with
  | nil => intro _; rfl
  | cons a l ih =>
    intro h
    simp only [pickFrom]
    rw [if_neg (fun hx => by
      rcases List.any_eq_true.mp hx with ⟨x, hx1, hx2⟩
      exact h a (List.mem_cons_self a l) (by rw [← show x = a by simpa using hx2]; exact hx1))]
    exact ih (fun x hx => h x (List.mem_cons_of_mem _ hx))

/-! ### Claim theorems -/

/-- C5: for every day's `distinctConditions` list, the day-card icon is
the icon of the first category in the priority order thunderstorm, rain,
snow, sleet, hail, fog, cloudy occurring in the list, and the default
clear icon if none occurs; in particular {"cloudy","rain"} selects the
rain icon, never the cloudy icon. -/
theorem C5_icon_priority :
    (∀ (conds l₁ : List String) (c : String) (l₂ : List String),
        priority = l₁ ++ c :: l₂ → (∀ x ∈ l₁, x ∉ conds) → c ∈ conds →
        pick_icon conds = icon c) ∧
    (∀ conds : List String, (∀ c ∈ priority, c ∉ conds) → pick_icon conds = icon "dry") ∧
    icon "dry" = "☀️" ∧
    pick_icon ["cloudy", "rain"] = icon "rain" ∧
    icon "rain" ≠ icon "cloudy" := by
  refine ⟨?_, ?_, rfl, by decide, by decide⟩
  · intro conds l₁ c l₂ hp h hc
    rw [pick_icon, hp]
    exact pickFrom_skip conds l₁ c l₂ h hc
  · intro conds h
    rw [pick_icon]
    exact pickFrom_none conds priority h

/-- Witness for C5: the priority rule applied at concrete inputs. -/
theorem C5_icon_priority_witness :
    pick_icon ["fog"] = icon "fog" ∧ pick_icon ["clear"] = icon "dry" :=
  ⟨C5_icon_priority.1 ["fog"] ["thunderstorm", "rain", "snow", "sleet", "hail"] "fog"
      ["cloudy"] (by decide) (by decide) (by decide),
    C5_icon_priority.2.1 ["clear"] (by decide)⟩

/-- C6: the color classifiers are exact threshold maps with
lower-inclusive boundaries: temperature `< 0` is cold-extreme (BLUE),
`[0,10)` cool (CYAN), `[10,20)` mild (GREEN), `[20,30)` warm (YELLOW),
`≥ 30` hot (RED); precipitation `≥ 70` is high-alert (RED), `[40,70)`
caution (YELLOW), `< 40` muted (DIM); in particular `tc 0 = CYAN` (not
BLUE), `tc 30 = RED`, `rc 40 = YELLOW` and `rc 70 = RED`. -/
theorem C6_color_thresholds :
    (∀ t : ℚ, (t < 0 → tc t = BLUE) ∧ (0 ≤ t → t < 10 → tc t = CYAN) ∧
        (10 ≤ t → t < 20 → tc t = GREEN) ∧ (20 ≤ t → t < 30 → tc t = YELLOW) ∧
        (30 ≤ t → tc t = RED)) ∧
    (∀ p : ℚ, (70 ≤ p → rc p = RED) ∧ (40 ≤ p → p < 70 → rc p = YELLOW) ∧
        (p < 40 → rc p = DIM)) ∧
    tc 0 = CYAN ∧ CYAN ≠ BLUE ∧ tc 30 = RED ∧ rc 40 = YELLOW ∧ rc 70 = RED := by
  refine ⟨?_, ?_, by decide, by decide, by decide, by decide, by decide⟩
  · intro t
    refine ⟨fun h => ?_, fun h0 h10 => ?_, fun h10 h20 => ?_, fun h20 h30 => ?_,
      fun h30 => ?_⟩
    · rw [tc, if_pos h]
    · rw [tc, if_neg (not_lt.mpr h0), if_pos h10]
    · rw [tc, if_neg (not_lt.mpr (by linarith)), if_neg (not_lt.mpr h10), if_pos h20]
    · rw [tc, if_neg (not_lt.mpr (by linarith)), if_neg (not_lt.mpr (by linarith)),
        if_neg (not_lt.mpr h20), if_pos h30]
    · rw [tc, if_neg (not_lt.mpr (by linarith)), if_neg (not_lt.mpr (by linarith)),
        if_neg (not_lt.mpr (by linarith)), if_neg (not_lt.mpr h30)]
  · intro p
    refine ⟨fun h => ?_, fun h40 h70 => ?_, fun h40 => ?_⟩
    · rw [rc, if_pos h]
    · rw [rc, if_neg (not_le.mpr h70), if_pos h40]
    · rw [rc, if_neg (not_le.mpr (by linarith)), if_neg (not_le.mpr h40)]

/-- Witness for C6: one input in each bucket. -/
theorem C6_color_thresholds_witness :
    tc (-5) = BLUE ∧ tc 5 = CYAN ∧ tc 15 = GREEN ∧ tc 25 = YELLOW ∧ tc 35 = RED ∧
      rc 80 = RED ∧ rc 50 = YELLOW ∧ rc 10 = DIM :=
  ⟨(C6_color_thresholds.1 (-5)).1 (by norm_num),
    (C6_color_thresholds.1 5).2.1 (by norm_num) (by norm_num),
    (C6_color_thresholds.1 15).2.2.1 (by norm_num) (by norm_num),
    (C6_color_thresholds.1 25).2.2.2.1 (by norm_num) (by norm_num),
    (C6_color_thresholds.1 35).2.2.2.2 (by norm_num),
    (C6_color_thresholds.2.1 80).1 (by norm_num),
    (C6_color_thresholds.2.1 50).2.1 (by norm_num) (by norm_num),
    (C6_color_thresholds.2.1 10).2.2 (by norm_num)⟩

theorem parse_total {e : WeatherEntry} (h : 16 ≤ e.timestamp.toList.length) :
    ∃ o, parseEntry e = some o := by
  have hd : dayKey e.timestamp = some ((e.timestamp.toList.take 10).asString) := by
    rw [dayKey, if_pos (by omega)]
  have hh : hourLabel e.timestamp
      = some (((e.timestamp.toList.drop 11).take 5).asString) := by
    rw [hourLabel, if_pos h]
  exact ⟨_, by rw [parseEntry, hd, hh]; rfl⟩

theorem mapM_parse_total :
    ∀ entries : List WeatherEntry, (∀ e ∈ entries, ∃ o, parseEntry e = some o) →
      ∃ obs, entries.mapM parseEntry = some obs := by
  intro entries
  induction entries with
  | nil => intro _; exact ⟨[], rfl⟩
  | cons e l ih =>
    intro h
    rcases h e (List.mem_cons_self e l) with ⟨o, ho⟩
    rcases ih (fun x hx => h x (List.mem_cons_of_mem _ hx)) with ⟨os, hos⟩
    exact ⟨o :: os, by rw [List.mapM_cons, ho, hos]; rfl⟩

/-- C8: the aggregator never fails on well-formed timestamps: the empty
input yields the empty summary list (not an error), every input whose
timestamps are at least 16 characters long aggregates successfully, and
an absent precipitation probability is defaulted to 0 rather than
rejected. -/
theorem C8_never_fails :
    (∀ today : String, aggregate today [] = some []) ∧
    (∀ (today : String) (entries : List WeatherEntry),
        (∀ e ∈ entries, 16 ≤ e.timestamp.toList.length) →
        ∃ days, aggregate today entries = some days) ∧
    (∀ (today : String) (e : WeatherEntry),
        e.precipitation_probability = none → 16 ≤ e.timestamp.toList.length →
        ∃ k s, aggregate today [e] = some [(k, s)] ∧ s.max_rp = 0) := by
  refine ⟨fun today => rfl, ?_, ?_⟩
  · intro today entries h
    rcases mapM_parse_total entries (fun e he => parse_total (h e he)) with ⟨obs, hobs⟩
    exact ⟨aggObs today obs, by rw [aggregate_eq, hobs]; rfl⟩
  · intro today e hnone hlen
    rcases parse_total hlen with ⟨o, ho⟩
    have hrp : o.rp = 0 := by
      rw [(parseEntry_spec ho).2.2.2.1, hnone]
      rfl
    have hm : [e].mapM parseEntry = some [o] := by
      rw [List.mapM_cons, ho, List.mapM_nil]
      rfl
    refine ⟨o.day, updateSummary today o initSummary, ?_, ?_⟩
    · rw [aggregate_eq, hm]
      rfl
    · show (if initSummary.max_rp < o.rp then o.rp else initSummary.max_rp) = 0
      rw [hrp]
      exact if_neg (lt_irrefl 0)

/-- Witness for C8: concrete empty, well-formed, and missing-precipitation inputs. -/
theorem C8_never_fails_witness :
    aggregate "2024-01-01" [] = some [] ∧
    (∃ days, aggregate "2024-01-01" [⟨"2024-01-02T10:00:00", 3, some 5, "rain"⟩]
      = some days) ∧
    (∃ k s, aggregate "2024-01-01" [⟨"2024-01-01T10:00:00", 3, none, "rain"⟩]
      = some [(k, s)] ∧ s.max_rp = 0) :=
  ⟨C8_never_fails.1 "2024-01-01",
    C8_never_fails.2.1 "2024-01-01" [⟨"2024-01-02T10:00:00", 3, some 5, "rain"⟩]
      (by decide),
    C8_never_fails.2.2 "2024-01-01" ⟨"2024-01-01T10:00:00", 3, none, "rain"⟩ rfl
      (by decide)⟩

/-- C9: the aggregator extracts the day key as the first 10 characters
of the timestamp and the hour label as characters 11 through 15; the
slicing succeeds on every timestamp of at least 16 characters, and on a
shorter timestamp the aggregation step panics (modelled as `none`). -/
theorem C9_timestamp_slicing :
    (∀ ts : String, 16 ≤ ts.toList.length →
        dayKey ts = some ((ts.toList.take 10).asString) ∧
        hourLabel ts = some (((ts.toList.drop 11).take 5).asString)) ∧
    (∀ today : String,
        aggregate today [⟨"2024-01-01", 0, none, "dry"⟩] = none) ∧
    ("2024-01-01" : String).toList.length < 16 := by
  refine ⟨?_, ?_, by decide⟩
  · intro ts h
    exact ⟨by rw [dayKey, if_pos (by omega)], by rw [hourLabel, if_pos h]⟩
  · intro today
    have hp : parseEntry ⟨"2024-01-01", 0, none, "dry"⟩ = none := by decide
    rw [aggregate, List.foldlM_cons]
    rw [hp]
    rfl

/-- Witness for C9: successful slicing at a 16-character timestamp and
the panic on a 10-character one. -/
theorem C9_timestamp_slicing_witness :
    (dayKey "2024-01-01T12:00" = some (("2024-01-01T12:00".toList.take 10).asString) ∧
      hourLabel "2024-01-01T12:00"
        = some ((("2024-01-01T12:00".toList.drop 11).take 5).asString)) ∧
    aggregate "2024-01-01" [⟨"2024-01-01", 0, none, "dry"⟩] = none :=
  ⟨C9_timestamp_slicing.1 "2024-01-01T12:00" (by decide),
    C9_timestamp_slicing.2.1 "2024-01-01"⟩

theorem forall₂_mem_left {α β : Type} {R : α → β → Prop} :
    ∀ {l₁ : List α} {l₂ : List β}, List.Forall₂ R l₁ l₂ →
      ∀ a ∈ l₁, ∃ b ∈ l₂, R a b := by
  intro l₁ l₂ h
  induction h with
  | nil => intro a ha; simp at ha
  | cons hab _ ih =>
    intro x hx
    rcases List.mem_cons.mp hx with hx | hx
    · subst hx; exact ⟨_, List.mem_cons_self _ _, hab⟩
    · rcases ih x hx with ⟨b, hb, hR⟩
      exact ⟨b, List.mem_cons_of_mem _ hb, hR⟩

theorem bridge_filter_day {entries : List WeatherEntry} {obs : List Obs}
    (h2 : List.Forall₂ (fun e o => parseEntry e = some o) entries obs) (k : String)
    {γ : Type} (f : WeatherEntry → γ) (g : Obs → γ)
    (hfg : ∀ e o, parseEntry e = some o → f e = g o) :
    (entries.filter (fun e => dayKey e.timestamp = some k)).map f
      = (obs.filter (fun o => o.day = k)).map g :=
  forall₂_filter_map
    (fun e o hR => by
      have hd := (parseEntry_spec hR).1
      simp [hd])
    hfg h2

/-- C1: for every non-empty observation sequence sharing a single day
key, the aggregated `DaySummary` satisfies `lo ≤ hi`, `hi` is the
maximum of the input temperatures and `lo` their minimum. -/
theorem C1_single_day_extrema (today : String) (entries : List WeatherEntry)
    (k : String) (days : List (String × DaySummary))
    (hne : entries ≠ [])
    (hkey : ∀ e ∈ entries, dayKey e.timestamp = some k)
    (hagg : aggregate today entries = some days) :
    ∃ s hi lo, days = [(k, s)] ∧ s.hi = XQ.fin hi ∧ s.lo = XQ.fin lo ∧ lo ≤ hi ∧
      hi ∈ entries.map (fun e => e.temperature) ∧
      (∀ x ∈ entries.map (fun e => e.temperature), x ≤ hi) ∧
      lo ∈ entries.map (fun e => e.temperature) ∧
      (∀ x ∈ entries.map (fun e => e.temperature), lo ≤ x) := by
  rcases aggregate_some hagg with ⟨obs, hm, hdays⟩
  have h2 := mapM_parse_forall₂ hm
  have hoday : ∀ o ∈ obs, o.day = k := by
    intro o ho
    rcases forall₂_mem_right h2 o ho with ⟨e, he, hR⟩
    have h1 := (parseEntry_spec hR).1
    exact Option.some.inj (h1.symm.trans (hkey e he))
  have hlen := h2.length_eq
  have hobs_ne : obs ≠ [] := by
    intro hc
    rw [hc, List.length_nil] at hlen
    exact hne (List.length_eq_zero.mp hlen)
  have hmapday_ne : obs.map Obs.day ≠ [] := by
    intro hc
    exact hobs_ne (List.map_eq_nil_iff.mp hc)
  have hfo : firstOccur (obs.map Obs.day) = [k] :=
    firstOccur_const hmapday_ne (by
      intro x hx
      rcases List.mem_map.mp hx with ⟨o, ho, hox⟩
      rw [← hox]
      exact hoday o ho)
  have hfilt : obs.filter (fun o => o.day = k) = obs :=
    List.filter_eq_self.mpr (fun o ho => by simpa using hoday o ho)
  have hdays' : days = [(k, dayFold today obs)] := by
    rw [hdays, grouped, hfo, List.map_singleton, hfilt]
  have htemps : entries.map (fun e => e.temperature) = obs.map Obs.t :=
    forall₂_map_eq (f := fun e => e.temperature) (g := Obs.t)
      (fun e o hR => ((parseEntry_spec hR).2.2.1).symm) h2
  rcases dayFold_hi_spec today obs hobs_ne with ⟨hiv, hhi, hhiMem, hhiUb⟩
  rcases dayFold_lo_spec today obs hobs_ne with ⟨lov, hlo, hloMem, hloLb⟩
  refine ⟨dayFold today obs, hiv, lov, hdays', hhi, hlo, hloLb hiv hhiMem, ?_, ?_, ?_, ?_⟩
  · rw [htemps]; exact hhiMem
  · rw [htemps]; exact hhiUb
  · rw [htemps]; exact hloMem
  · rw [htemps]; exact hloLb

/-- Counterexample for C2 as stated: with a (representable) negative
precipitation value, the aggregated `max_rp` is 0, which is not the
maximum of the day's defaulted precipitation values `[-5]`. -/
theorem C2_max_precip_counterexample :
    (aggregate "2024-01-01" [⟨"2024-01-01T00:00:00", 5, some (-5), "clear"⟩]).map
        (fun days => days.map (fun p => (p.1, p.2.max_rp)))
      = some [("2024-01-01", 0)] ∧
    dayRps [⟨"2024-01-01T00:00:00", 5, some (-5), "clear"⟩] "2024-01-01" = [-5] ∧
    (0 : ℚ) ∉ ([-5] : List ℚ) :=
  ⟨by decide, by decide, by decide⟩

/-- C2 (amended): for every day present in the input, the aggregated
`max_rp` is an upper bound of the day's defaulted precipitation values,
it equals their maximum whenever those values are nonnegative (in
particular for valid inputs in [0,100]), and for inputs whose values
all lie in [0,100] it lies in [0,100]. -/
theorem C2_max_precip (today : String) (entries : List WeatherEntry)
    (days : List (String × DaySummary)) (hagg : aggregate today entries = some days) :
    ∀ p ∈ days,
      (∀ r ∈ dayRps entries p.1, r ≤ p.2.max_rp) ∧
      ((∀ r ∈ dayRps entries p.1, 0 ≤ r) → p.2.max_rp ∈ dayRps entries p.1) ∧
      ((∀ e ∈ entries, 0 ≤ e.precipitation_probability.getD 0 ∧
          e.precipitation_probability.getD 0 ≤ 100) →
        0 ≤ p.2.max_rp ∧ p.2.max_rp ≤ 100) := by
  rcases aggregate_some hagg with ⟨obs, hm, hdays⟩
  have h2 := mapM_parse_forall₂ hm
  intro p hp
  rw [hdays] at hp
  rcases mem_grouped hp with ⟨hpeq, o₀, ho₀, ho₀day⟩
  have hrps : dayRps entries p.1 = (obs.filter (fun o => o.day = p.1)).map Obs.rp :=
    bridge_filter_day h2 p.1 _ _ (fun e o hR => ((parseEntry_spec hR).2.2.2.1).symm)
  have hmax : p.2.max_rp = ((obs.filter (fun o => o.day = p.1)).map Obs.rp).foldl max 0 := by
    rw [hpeq]
    exact dayFold_rp_spec today _
  have hub : ∀ r ∈ dayRps entries p.1, r ≤ p.2.max_rp := by
    intro r hr
    rw [hmax]
    rw [hrps] at hr
    exact le_foldl_max _ 0 r (Or.inr hr)
  have hrps_ne : dayRps entries p.1 ≠ [] := by
    rw [hrps]
    intro hc
    exact filter_day_ne_nil ho₀ ho₀day (List.map_eq_nil_iff.mp hc)
  refine ⟨hub, ?_, ?_⟩
  · intro hnn
    rcases List.mem_cons.mp
        (foldl_max_mem ((obs.filter (fun o => o.day = p.1)).map Obs.rp) 0) with h | h
    · rcases List.exists_mem_of_ne_nil _ hrps_ne with ⟨r₀, hr₀⟩
      have h1 : r₀ ≤ p.2.max_rp := hub r₀ hr₀
      rw [hmax, h] at h1
      have hr0 : r₀ = 0 := le_antisymm h1 (hnn r₀ hr₀)
      rw [hmax, h, ← hr0]
      exact hr₀
    · rw [hmax, hrps]
      exact h
  · intro hval
    constructor
    · rw [hmax]
      exact le_foldl_max _ 0 0 (Or.inl rfl)
    · rw [hmax]
      rcases List.mem_cons.mp
          (foldl_max_mem ((obs.filter (fun o => o.day = p.1)).map Obs.rp) 0) with h | h
      · rw [h]; norm_num
      · rw [← hrps] at h
        rcases List.mem_map.mp h with ⟨e, he, hre⟩
        rw [← hrps, ← hre]
        exact (hval e (List.mem_filter.mp he).1).2

/-- C3: the day summaries come out in first-occurrence order of the
distinct day keys of the input stream, and the card-rendering loop
emits them in exactly that order. -/
theorem C3_first_occurrence_order (today : String) (entries : List WeatherEntry)
    (days : List (String × DaySummary)) (hagg : aggregate today entries = some days) :
    cardOrder days = firstOccur (entries.filterMap (fun e => dayKey e.timestamp)) := by
  rcases aggregate_some hagg with ⟨obs, hm, hdays⟩
  have h2 := mapM_parse_forall₂ hm
  have hfm : entries.filterMap (fun e => dayKey e.timestamp) = obs.map Obs.day :=
    forall₂_filterMap_eq (f := fun e => dayKey e.timestamp) (g := Obs.day)
      (fun e o hR => (parseEntry_spec hR).1) h2
  rw [hfm, hdays, cardOrder, grouped, List.map_map]
  rw [show ((Prod.fst : String × DaySummary → String) ∘
      (fun k => (k, dayFold today (obs.filter (fun o => o.day = k))))) = id from rfl]
  exact List.map_id _

/-- C4: the hourly section is emitted iff some observation's day key
equals `today`; it lists exactly the (hour, temperature, defaulted
precipitation, condition) tuples of today's observations in input
order, and the `hours` of every other day is empty. -/
theorem C4_hourly_section (today : String) (entries : List WeatherEntry)
    (days : List (String × DaySummary)) (hagg : aggregate today entries = some days) :
    (hourlySectionEmitted today days = true ↔
      ∃ e ∈ entries, dayKey e.timestamp = some today) ∧
    todaysHours today days
      = entries.filterMap (fun e => (parseEntry e).bind
          (fun o => if o.day = today then some (o.hour, o.t, o.rp, o.cond) else none)) ∧
    (∀ p ∈ days, p.1 ≠ today → p.2.hours = []) := by
  rcases aggregate_some hagg with ⟨obs, hm, hdays⟩
  have h2 := mapM_parse_forall₂ hm
  have hfind : days.find? (fun p => p.1 == today)
      = if today ∈ firstOccur (obs.map Obs.day)
        then some (today, dayFold today (obs.filter (fun o => o.day = today)))
        else none := by
    rw [hdays, grouped]
    exact find?_grouped today _ _
  have hkeys_iff : today ∈ firstOccur (obs.map Obs.day) ↔
      ∃ e ∈ entries, dayKey e.timestamp = some today := by
    rw [mem_firstOccur, List.mem_map]
    constructor
    · rintro ⟨o, ho, hod⟩
      rcases forall₂_mem_right h2 o ho with ⟨e, he, hR⟩
      exact ⟨e, he, by rw [(parseEntry_spec hR).1, hod]⟩
    · rintro ⟨e, he, hde⟩
      rcases forall₂_mem_left h2 e he with ⟨o, ho, hR⟩
      refine ⟨o, ho, ?_⟩
      have h1 := (parseEntry_spec hR).1
      exact Option.some.inj (h1.symm.trans hde)
  have hRhs : entries.filterMap (fun e => (parseEntry e).bind
        (fun o => if o.day = today then some (o.hour, o.t, o.rp, o.cond) else none))
      = (obs.filter (fun o => o.day = today)).map (fun o => (o.hour, o.t, o.rp, o.cond)) := by
    rw [forall₂_filterMap_congr
      (g := fun o : Obs =>
        if o.day = today then some (o.hour, o.t, o.rp, o.cond) else none)
      (fun e o hR => by rw [hR]; rfl) h2]
    exact filterMap_ite_eq_filter_map (fun o : Obs => o.day = today) _ obs
  have hhours : (dayFold today (obs.filter (fun o => o.day = today))).hours
      = (obs.filter (fun o => o.day = today)).map (fun o => (o.hour, o.t, o.rp, o.cond)) := by
    rw [dayFold_hours_spec]
    rw [List.filter_eq_self.mpr (fun o ho => (List.mem_filter.mp ho).2)]
  refine ⟨?_, ?_, ?_⟩
  · rw [hourlySectionEmitted, hfind]
    by_cases hmem : today ∈ firstOccur (obs.map Obs.day)
    · rw [if_pos hmem]
      have hex := hkeys_iff.mp hmem
      simp only [hhours]
      constructor
      · intro _; exact hex
      · intro _
        rcases List.mem_map.mp (mem_firstOccur.mp hmem) with ⟨o, ho, hod⟩
        have hne : obs.filter (fun o => o.day = today) ≠ [] :=
          filter_day_ne_nil ho hod
        cases hl : (obs.filter (fun o => o.day = today)).map
            (fun o => (o.hour, o.t, o.rp, o.cond)) with
        | nil => exact absurd (List.map_eq_nil_iff.mp hl) hne
        | cons x xs => rfl
    · rw [if_neg hmem]
      simp only [Bool.false_eq_true, false_iff]
      intro hc
      exact hmem (hkeys_iff.mpr hc)
  · rw [todaysHours, hfind, hRhs]
    by_cases hmem : today ∈ firstOccur (obs.map Obs.day)
    · rw [if_pos hmem]
      exact hhours
    · rw [if_neg hmem]
      have : obs.filter (fun o => o.day = today) = [] := by
        rw [List.filter_eq_nil_iff]
        intro o ho hc
        exact hmem (mem_firstOccur.mpr
          (List.mem_map.mpr ⟨o, ho, by simpa using hc⟩))
      rw [this, List.map_nil]
  · intro p hp hpne
    rw [hdays] at hp
    rcases mem_grouped hp with ⟨hpeq, _, _, _⟩
    have : p.2 = dayFold today (obs.filter (fun o => o.day = p.1)) := by
      rw [hpeq]
    rw [this, dayFold_hours_spec]
    rw [show (obs.filter (fun o => o.day = p.1)).filter (fun o => o.day = today) = []
      from List.filter_eq_nil_iff.mpr (fun o ho hc => by
        have h1 := (List.mem_filter.mp ho).2
        exact hpne (by
          have h1' : o.day = p.1 := by simpa using h1
          have hc' : o.day = today := by simpa using hc
          rw [← h1', hc']))]
    rfl

/-- C7: a day's `distinctConditions` never contains the default "dry"
label, never contains duplicates, and lists the day's non-dry condition
labels in first-insertion order. -/
theorem C7_distinct_conditions (today : String) (entries : List WeatherEntry)
    (days : List (String × DaySummary)) (hagg : aggregate today entries = some days) :
    ∀ p ∈ days,
      "dry" ∉ p.2.conds ∧ p.2.conds.Nodup ∧
      p.2.conds = firstOccur ((dayConds entries p.1).filter (fun c => ¬ c = "dry")) := by
  rcases aggregate_some hagg with ⟨obs, hm, hdays⟩
  have h2 := mapM_parse_forall₂ hm
  intro p hp
  rw [hdays] at hp
  rcases mem_grouped hp with ⟨hpeq, _, _, _⟩
  have hconds : p.2.conds
      = firstOccur (((obs.filter (fun o => o.day = p.1)).map Obs.cond).filter
          (fun c => ¬ c = "dry")) := by
    rw [hpeq]
    exact dayFold_conds_spec today _
  have hbr : dayConds entries p.1 = (obs.filter (fun o => o.day = p.1)).map Obs.cond :=
    bridge_filter_day h2 p.1 _ _ (fun e o hR => ((parseEntry_spec hR).2.2.2.2).symm)
  refine ⟨?_, ?_, ?_⟩
  · rw [hconds]
    intro hc
    have := List.mem_filter.mp (mem_firstOccur.mp hc)
    simp at this
  · rw [hconds]
    exact firstOccur_nodup _
  · rw [hconds, hbr]

theorem pickFrom_congr (conds conds₂ : List String) :
    ∀ l : List String, (∀ c ∈ l, (c ∈ conds ↔ c ∈ conds₂)) →
      pickFrom conds l = pickFrom conds₂ l := by
  intro l
  induction l with
  | nil => intro _; rfl
  | cons c l ih =>
    intro h
    simp only [pickFrom]
    have hmem_any : ∀ cs : List String, (cs.any (fun s => s == c)) = true ↔ c ∈ cs := by
      intro cs
      rw [List.any_eq_true]
      constructor
      · rintro ⟨x, hx1, hx2⟩
        rw [← show x = c by simpa using hx2]
        exact hx1
      · intro hx
        exact ⟨c, hx, by simp⟩
    have hiff : c ∈ conds ↔ c ∈ conds₂ := h c (List.mem_cons_self _ _)
    have hany : (conds.any (fun s => s == c)) = (conds₂.any (fun s => s == c)) := by
      cases hb1 : conds.any (fun s => s == c) with
      | true => exact ((hmem_any conds₂).mpr (hiff.mp ((hmem_any conds).mp hb1))).symm
      | false =>
        cases hb2 : conds₂.any (fun s => s == c) with
        | false => rfl
        | true =>
          exfalso
          have hcc := hiff.mpr ((hmem_any conds₂).mp hb2)
          rw [(hmem_any conds).mpr hcc] at hb1
          exact absurd hb1 (by simp)
    rw [hany]
    by_cases hb : (conds₂.any (fun s => s == c)) = true
    · rw [if_pos hb, if_pos hb]
    · rw [if_neg hb, if_neg hb]
      exact ih (fun x hx => h x (List.mem_cons_of_mem _ hx))

/-- C10: an observation whose condition label is neither "dry" nor one
of the seven recognized categories is still appended to its day's
`distinctConditions`, but such labels never affect the chosen day-card
icon: `pick_icon` depends only on which priority categories are
present, and yields the default clear icon when none is. -/
theorem C10_unrecognized_conditions :
    (∀ (today : String) (entries : List WeatherEntry)
        (days : List (String × DaySummary)),
        aggregate today entries = some days →
        ∀ p ∈ days, ∀ e ∈ entries, dayKey e.timestamp = some p.1 →
          e.condition ≠ "dry" → e.condition ∉ priority →
          e.condition ∈ p.2.conds) ∧
    (∀ conds conds₂ : List String, (∀ c ∈ priority, (c ∈ conds ↔ c ∈ conds₂)) →
        pick_icon conds = pick_icon conds₂) ∧
    (∀ conds : List String, (∀ c ∈ priority, c ∉ conds) → pick_icon conds = "☀️") := by
  refine ⟨?_, ?_, ?_⟩
  · intro today entries days hagg p hp e he hde hdry _
    rcases aggregate_some hagg with ⟨obs, hm, hdays⟩
    have h2 := mapM_parse_forall₂ hm
    rw [hdays] at hp
    rcases mem_grouped hp with ⟨hpeq, _, _, _⟩
    have hconds : p.2.conds
        = firstOccur (((obs.filter (fun o => o.day = p.1)).map Obs.cond).filter
            (fun c => ¬ c = "dry")) := by
      rw [hpeq]
      exact dayFold_conds_spec today _
    rcases forall₂_mem_left h2 e he with ⟨o, ho, hR⟩
    have hspec := parseEntry_spec hR
    have hod : o.day = p.1 := Option.some.inj (hspec.1.symm.trans hde)
    have hoc : o.cond = e.condition := hspec.2.2.2.2
    rw [hconds]
    apply mem_firstOccur.mpr
    apply List.mem_filter.mpr
    refine ⟨List.mem_map.mpr ⟨o, List.mem_filter.mpr ⟨ho, by simpa using hod⟩, hoc⟩, ?_⟩
    simpa [hoc] using hdry
  · intro conds conds₂ h
    rw [pick_icon, pick_icon]
    exact pickFrom_congr conds conds₂ priority h
  · intro conds h
    rw [pick_icon]
    exact pickFrom_none conds priority h

/-- Witness for C1: a concrete two-observation single-day input. -/
theorem C1_single_day_extrema_witness :
    ∃ s hi lo,
      [("2024-01-01",
        (⟨XQ.fin 5, XQ.fin (-2), 80, ["clear", "rain"],
          [("00:00", -2, 10, "clear"), ("12:00", 5, 80, "rain")]⟩ : DaySummary))]
        = [("2024-01-01", s)] ∧
      s.hi = XQ.fin hi ∧ s.lo = XQ.fin lo ∧ lo ≤ hi ∧
      hi ∈ ([⟨"2024-01-01T00:00:00", -2, some 10, "clear"⟩,
          ⟨"2024-01-01T12:00:00", 5, some 80, "rain"⟩] : List WeatherEntry).map
          (fun e => e.temperature) ∧
      (∀ x ∈ ([⟨"2024-01-01T00:00:00", -2, some 10, "clear"⟩,
          ⟨"2024-01-01T12:00:00", 5, some 80, "rain"⟩] : List WeatherEntry).map
          (fun e => e.temperature), x ≤ hi) ∧
      lo ∈ ([⟨"2024-01-01T00:00:00", -2, some 10, "clear"⟩,
          ⟨"2024-01-01T12:00:00", 5, some 80, "rain"⟩] : List WeatherEntry).map
          (fun e => e.temperature) ∧
      (∀ x ∈ ([⟨"2024-01-01T00:00:00", -2, some 10, "clear"⟩,
          ⟨"2024-01-01T12:00:00", 5, some 80, "rain"⟩] : List WeatherEntry).map
          (fun e => e.temperature), lo ≤ x) :=
  C1_single_day_extrema "2024-01-01"
    [⟨"2024-01-01T00:00:00", -2, some 10, "clear"⟩,
      ⟨"2024-01-01T12:00:00", 5, some 80, "rain"⟩]
    "2024-01-01"
    [("2024-01-01",
      ⟨XQ.fin 5, XQ.fin (-2), 80, ["clear", "rain"],
        [("00:00", -2, 10, "clear"), ("12:00", 5, 80, "rain")]⟩)]
    (by decide) (by decide) (by decide)

/-- Witness for C2 (amended), on a valid concrete input: the day's
`max_rp` bounds each defaulted value, is one of them, and lies in
[0,100]. -/
theorem C2_max_precip_witness :
    (10 : ℚ) ≤ (⟨XQ.fin 5, XQ.fin (-2), 80, ["clear", "rain"],
        [("00:00", -2, 10, "clear"), ("12:00", 5, 80, "rain")]⟩ : DaySummary).max_rp ∧
    (⟨XQ.fin 5, XQ.fin (-2), 80, ["clear", "rain"],
        [("00:00", -2, 10, "clear"), ("12:00", 5, 80, "rain")]⟩ : DaySummary).max_rp
      ∈ dayRps [⟨"2024-01-01T00:00:00", -2, some 10, "clear"⟩,
          ⟨"2024-01-01T12:00:00", 5, some 80, "rain"⟩] "2024-01-01" ∧
    (0 ≤ (⟨XQ.fin 5, XQ.fin (-2), 80, ["clear", "rain"],
        [("00:00", -2, 10, "clear"), ("12:00", 5, 80, "rain")]⟩ : DaySummary).max_rp ∧
      (⟨XQ.fin 5, XQ.fin (-2), 80, ["clear", "rain"],
        [("00:00", -2, 10, "clear"), ("12:00", 5, 80, "rain")]⟩ : DaySummary).max_rp
        ≤ 100) := by
  have h := C2_max_precip "2024-01-01"
    [⟨"2024-01-01T00:00:00", -2, some 10, "clear"⟩,
      ⟨"2024-01-01T12:00:00", 5, some 80, "rain"⟩]
    [("2024-01-01",
      ⟨XQ.fin 5, XQ.fin (-2), 80, ["clear", "rain"],
        [("00:00", -2, 10, "clear"), ("12:00", 5, 80, "rain")]⟩)]
    (by decide)
    ("2024-01-01",
      ⟨XQ.fin 5, XQ.fin (-2), 80, ["clear", "rain"],
        [("00:00", -2, 10, "clear"), ("12:00", 5, 80, "rain")]⟩)
    (by decide)
  exact ⟨h.1 10 (by decide), h.2.1 (by decide), h.2.2 (by decide)⟩

/-- Witness for C3: day keys arriving as [B, A, B, C] produce cards in
order [B, A, C]. -/
theorem C3_first_occurrence_order_witness :
    cardOrder [("BBBBBBBBBB", (⟨XQ.fin 0, XQ.fin 0, 0, [], []⟩ : DaySummary)),
        ("AAAAAAAAAA", ⟨XQ.fin 0, XQ.fin 0, 0, [], []⟩),
        ("CCCCCCCCCC", ⟨XQ.fin 0, XQ.fin 0, 0, [], []⟩)]
      = firstOccur (([⟨"BBBBBBBBBBT00:00", 0, none, "dry"⟩,
          ⟨"AAAAAAAAAAT00:00", 0, none, "dry"⟩,
          ⟨"BBBBBBBBBBT01:00", 0, none, "dry"⟩,
          ⟨"CCCCCCCCCCT00:00", 0, none, "dry"⟩] : List WeatherEntry).filterMap
          (fun e => dayKey e.timestamp)) ∧
    cardOrder [("BBBBBBBBBB", (⟨XQ.fin 0, XQ.fin 0, 0, [], []⟩ : DaySummary)),
        ("AAAAAAAAAA", ⟨XQ.fin 0, XQ.fin 0, 0, [], []⟩),
        ("CCCCCCCCCC", ⟨XQ.fin 0, XQ.fin 0, 0, [], []⟩)]
      = ["BBBBBBBBBB", "AAAAAAAAAA", "CCCCCCCCCC"] :=
  ⟨C3_first_occurrence_order "X"
      [⟨"BBBBBBBBBBT00:00", 0, none, "dry"⟩, ⟨"AAAAAAAAAAT00:00", 0, none, "dry"⟩,
        ⟨"BBBBBBBBBBT01:00", 0, none, "dry"⟩, ⟨"CCCCCCCCCCT00:00", 0, none, "dry"⟩]
      [("BBBBBBBBBB", ⟨XQ.fin 0, XQ.fin 0, 0, [], []⟩),
        ("AAAAAAAAAA", ⟨XQ.fin 0, XQ.fin 0, 0, [], []⟩),
        ("CCCCCCCCCC", ⟨XQ.fin 0, XQ.fin 0, 0, [], []⟩)]
      (by decide),
    by decide⟩

/-- Witness for C4: a two-day input whose first day is today. -/
theorem C4_hourly_section_witness :
    (hourlySectionEmitted "2024-01-01"
        [("2024-01-01",
          (⟨XQ.fin 5, XQ.fin (-2), 80, ["clear", "rain"],
            [("00:00", -2, 10, "clear"), ("12:00", 5, 80, "rain")]⟩ : DaySummary)),
          ("2024-01-02", ⟨XQ.fin 7, XQ.fin 7, 0, [], []⟩)] = true ↔
      ∃ e ∈ ([⟨"2024-01-01T00:00:00", -2, some 10, "clear"⟩,
          ⟨"2024-01-01T12:00:00", 5, some 80, "rain"⟩,
          ⟨"2024-01-02T03:00:00", 7, none, "dry"⟩] : List WeatherEntry),
        dayKey e.timestamp = some "2024-01-01") ∧
    todaysHours "2024-01-01"
        [("2024-01-01",
          ⟨XQ.fin 5, XQ.fin (-2), 80, ["clear", "rain"],
            [("00:00", -2, 10, "clear"), ("12:00", 5, 80, "rain")]⟩),
          ("2024-01-02", ⟨XQ.fin 7, XQ.fin 7, 0, [], []⟩)]
      = ([⟨"2024-01-01T00:00:00", -2, some 10, "clear"⟩,
          ⟨"2024-01-01T12:00:00", 5, some 80, "rain"⟩,
          ⟨"2024-01-02T03:00:00", 7, none, "dry"⟩] : List WeatherEntry).filterMap
          (fun e => (parseEntry e).bind
            (fun o => if o.day = "2024-01-01" then some (o.hour, o.t, o.rp, o.cond)
              else none)) ∧
    (∀ p ∈ [("2024-01-01",
          (⟨XQ.fin 5, XQ.fin (-2), 80, ["clear", "rain"],
            [("00:00", -2, 10, "clear"), ("12:00", 5, 80, "rain")]⟩ : DaySummary)),
          ("2024-01-02", ⟨XQ.fin 7, XQ.fin 7, 0, [], []⟩)],
      p.1 ≠ "2024-01-01" → p.2.hours = []) :=
  C4_hourly_section "2024-01-01"
    [⟨"2024-01-01T00:00:00", -2, some 10, "clear"⟩,
      ⟨"2024-01-01T12:00:00", 5, some 80, "rain"⟩,
      ⟨"2024-01-02T03:00:00", 7, none, "dry"⟩]
    [("2024-01-01",
      ⟨XQ.fin 5, XQ.fin (-2), 80, ["clear", "rain"],
        [("00:00", -2, 10, "clear"), ("12:00", 5, 80, "rain")]⟩),
      ("2024-01-02", ⟨XQ.fin 7, XQ.fin 7, 0, [], []⟩)]
    (by decide)

/-- Witness for C7: a day seeing "rain", "dry", "rain" records exactly
["rain"]. -/
theorem C7_distinct_conditions_witness :
    "dry" ∉ (⟨XQ.fin 3, XQ.fin 1, 4, ["rain"], []⟩ : DaySummary).conds ∧
    (⟨XQ.fin 3, XQ.fin 1, 4, ["rain"], []⟩ : DaySummary).conds.Nodup ∧
    (⟨XQ.fin 3, XQ.fin 1, 4, ["rain"], []⟩ : DaySummary).conds
      = firstOccur ((dayConds [⟨"2024-01-05T00:00:00", 1, some 3, "rain"⟩,
          ⟨"2024-01-05T01:00:00", 2, some 4, "dry"⟩,
          ⟨"2024-01-05T02:00:00", 3, some 2, "rain"⟩] "2024-01-05").filter
          (fun c => ¬ c = "dry")) :=
  C7_distinct_conditions "X"
    [⟨"2024-01-05T00:00:00", 1, some 3, "rain"⟩,
      ⟨"2024-01-05T01:00:00", 2, some 4, "dry"⟩,
      ⟨"2024-01-05T02:00:00", 3, some 2, "rain"⟩]
    [("2024-01-05", ⟨XQ.fin 3, XQ.fin 1, 4, ["rain"], []⟩)]
    (by decide)
    ("2024-01-05", ⟨XQ.fin 3, XQ.fin 1, 4, ["rain"], []⟩)
    (by decide)

/-- Witness for C10: the unrecognized label "drizzle" is recorded but
yields the default clear icon. -/
theorem C10_unrecognized_conditions_witness :
    "drizzle" ∈ (⟨XQ.fin 1, XQ.fin 1, 3, ["drizzle"], []⟩ : DaySummary).conds ∧
    pick_icon ["drizzle"] = pick_icon [] ∧
    pick_icon ["drizzle"] = "☀️" :=
  ⟨C10_unrecognized_conditions.1 "X" [⟨"2024-01-06T00:00:00", 1, some 3, "drizzle"⟩]
      [("2024-01-06", ⟨XQ.fin 1, XQ.fin 1, 3, ["drizzle"], []⟩)] (by decide)
      ("2024-01-06", ⟨XQ.fin 1, XQ.fin 1, 3, ["drizzle"], []⟩) (by decide)
      ⟨"2024-01-06T00:00:00", 1, some 3, "drizzle"⟩ (by decide) (by decide) (by decide)
      (by decide),
    C10_unrecognized_conditions.2.1 ["drizzle"] [] (by decide),
    C10_unrecognized_conditions.2.2 ["drizzle"] (by decide)⟩

end Weather
